import Mathlib

/-!
Verification development for the vef2-verk4 todo service.

The definitions below are a shallow embedding of `src/todos.js`,
`src/api.js` and the `todos` table schema.  JavaScript values that
flow through the data layer are modelled by `Todos.JVal`; the
third-party libraries `xss` and `validator` are modelled from their
documented/observed behaviour (see the doc comments on `Todos.xss`,
`Todos.isISO8601`); PostgreSQL parameter casting for the four column
types of the `todos` table is modelled from the schema in
`verk4.sql` (`src/unnamed/part_000`).
-/

namespace Todos

/-- A JavaScript value as it appears in the todo payloads: absent
(`undefined`), `null`, a string, a number (integers only: the claims
only involve integral positions), or a boolean. -/
inductive JVal where
  | undef
  | null
  | str (s : String)
  | num (n : Int)
  | bool (b : Bool)
deriving DecidableEq, Repr

/-- JavaScript truthiness of a `JVal`. -/
def jsTruthy : JVal → Bool
  | .undef => false
  | .null => false
  | .str s => !(s == "")
  | .num n => !(n == 0)
  | .bool b => b

/-- JavaScript loose equality `v == null`, true exactly for `null`
and `undefined`. -/
def jsEqNull : JVal → Bool
  | .undef => true
  | .null => true
  | _ => false

/-- `isEmpty` from `src/todos.js`: `s == null && !s`.  Since `null`
and `undefined` are both falsy this is exactly the null-or-undefined
test. -/
def isEmpty (v : JVal) : Bool := jsEqNull v && !jsTruthy v

/-- Digits of a natural number in base ten, most significant first
(`fuel` bounds the recursion; `natToStr` supplies enough). -/
def natDigitsAux : Nat → Nat → List Char
  | 0, _ => []
  | fuel + 1, n =>
    if n < 10 then [Nat.digitChar n]
    else natDigitsAux fuel (n / 10) ++ [Nat.digitChar (n % 10)]

/-- Base-ten rendering of a natural number (always nonempty, digits
only). -/
def natToStr (n : Nat) : List Char := natDigitsAux (n + 1) n

/-- Base-ten rendering of an integer: a minus sign followed by digits
when negative, digits alone otherwise. -/
def intToChars (n : Int) : List Char :=
  if n < 0 then '-' :: natToStr (-n).toNat else natToStr n.toNat

/-- JavaScript `String(v)` on the values reachable in this code
(numbers are printed in base ten, booleans as `true` and `false`). -/
def jsToString : JVal → String
  | .undef => "undefined"
  | .null => "null"
  | .str s => s
  | .num n => String.mk (intToChars n)
  | .bool b => if b then "true" else "false"

/-- The characters of the tag name `script`. -/
def scriptChars : List Char := ['s', 'c', 'r', 'i', 'p', 't']

/-- Does the character list begin with `script` or `/script`, i.e.
is a `<` right before it the start of an opening or closing script
tag? -/
def isScriptStart (l : List Char) : Bool :=
  scriptChars.isPrefixOf l || (('/' :: scriptChars).isPrefixOf l)

/-- Modelled from the `xss` npm library (default configuration),
restricted to the behaviour relevant here: `script` is not in the
default tag whitelist, so the `<` opening a `<script ...>` or
`</script ...>` tag is escaped to `&lt;` (the library also escapes
the rest of the tag; escaping the `<` already neutralizes it). -/
def neutralize : List Char → List Char
  | [] => []
  | c :: r =>
    if c == '<' && isScriptStart r then
      '&' :: 'l' :: 't' :: ';' :: neutralize r
    else
      c :: neutralize r

/-- One pass of the comment stripper, modelled from the `xss` npm
library's default `stripCommentTag`: outside a comment, `<!--`
switches into comment mode and the search for `-->` resumes at the
two dashes just read (the library's `indexOf('-->', i)` starts at the
`<`, so a `<!-->` closes its own comment); inside a comment,
everything up to and including the first `-->` is dropped, and an
unterminated comment drops the rest of the input.  `fuel` bounds the
recursion; `stripComments` supplies the input length, which is
enough because every step consumes at least one character. -/
def stripCommentsAux : Nat → Bool → List Char → List Char
  | 0, _, _ => []
  | fuel + 1, inside, l =>
    match l with
    | [] => []
    | c :: rest =>
      if inside then
        if ['-', '-', '>'].isPrefixOf (c :: rest) then
          stripCommentsAux fuel false (rest.drop 2)
        else
          stripCommentsAux fuel true rest
      else
        if ['<', '!', '-', '-'].isPrefixOf (c :: rest) then
          stripCommentsAux fuel true (rest.drop 1)
        else
          c :: stripCommentsAux fuel false rest

/-- `stripCommentTag` from the `xss` npm library (default
configuration strips HTML comments: `allowCommentTag` is off). -/
def stripComments (l : List Char) : List Char :=
  stripCommentsAux l.length false l

/-- `xss(v)` from the `xss` npm library: its entry point runs
`html = html || ""; html = html.toString();` and then strips HTML
comments (`stripCommentTag`, on by default) before escaping
non-whitelisted tags, so every falsy input (`undefined`, `null`,
`0`, `false`, `""`) becomes the empty string, and a truthy input is
stringified, comment-stripped and sanitized (`neutralize`). -/
def xss (v : JVal) : String :=
  if jsTruthy v then
    String.mk (neutralize (stripComments (jsToString v).data))
  else ""

/-- Does the character list contain a `<` immediately followed by
`script` or `/script` (an un-neutralized script tag)? -/
def containsScriptTag : List Char → Bool
  | [] => false
  | c :: r => (c == '<' && isScriptStart r) || containsScriptTag r

/-- Modelled from the `validator` npm library:
`validator.isLength(s, { min: 1, max: 128 })`. -/
def isLength1to128 (s : String) : Bool :=
  decide (1 ≤ s.length) && decide (s.length ≤ 128)

/-- Modelled from the `validator` npm library: `validator.isISO8601`.
This is a sound executable subset (calendar dates `YYYY-MM-DD` with a
month in 01..12 and a day in 01..28): every string it accepts is a
valid ISO 8601 date.  No claim depends on the exact boundary of the
accepted language. -/
def isISO8601 (s : String) : Bool :=
  match s.data with
  | [y1, y2, y3, y4, '-', m1, m2, '-', d1, d2] =>
    ([y1, y2, y3, y4, m1, m2, d1, d2].all Char.isDigit) &&
    (decide (1 ≤ (m1.toNat - 48) * 10 + (m2.toNat - 48)) &&
     decide ((m1.toNat - 48) * 10 + (m2.toNat - 48) ≤ 12)) &&
    (decide (1 ≤ (d1.toNat - 48) * 10 + (d2.toNat - 48)) &&
     decide ((d1.toNat - 48) * 10 + (d2.toNat - 48) ≤ 28))
  | _ => false

/-- One field-level validation error: `{ field, message }`. -/
structure VErr where
  field : String
  message : String
deriving DecidableEq, Repr

/-- The payload destructured by `create`/`update`/`validateTodo`:
`{ title, position, completed, due }`, each possibly absent. -/
structure TodoInput where
  title : JVal
  position : JVal
  completed : JVal
  due : JVal
deriving DecidableEq, Repr

/-- `typeof title === 'string' && validator.isLength(title, {min:1,max:128})`. -/
def titleOk : JVal → Bool
  | .str s => isLength1to128 s
  | _ => false

/-- `typeof position === 'number' && position >= 0`. -/
def positionOk : JVal → Bool
  | .num n => decide (0 ≤ n)
  | _ => false

/-- `typeof completed === 'boolean'`. -/
def completedOk : JVal → Bool
  | .bool _ => true
  | _ => false

/-- `typeof due === 'string' && validator.isISO8601(due)`. -/
def dueOk : JVal → Bool
  | .str s => isISO8601 s
  | _ => false

/-- `validateTodo` from `src/todos.js`: each field is checked only
when it is present (`!isEmpty`), and failing checks push a
field-level error, in source order. -/
def validateTodo (t : TodoInput) : List VErr :=
  (if !isEmpty t.title && !titleOk t.title then
    [⟨"title", "Titill verður að vera strengur sem er 1 til 128 stafir"⟩]
  else []) ++
  (if !isEmpty t.position && !positionOk t.position then
    [⟨"position", "Staðsetning verður að vera heiltala stærri eða jöfn 0"⟩]
  else []) ++
  (if !isEmpty t.completed && !completedOk t.completed then
    [⟨"completed", "Lokið verður að vera boolean gildi"⟩]
  else []) ++
  (if !isEmpty t.due && !dueOk t.due then
    [⟨"due", "Dagsetning verður að vera gild ISO 8601 dagsetning"⟩]
  else [])

/-- A persisted row of the `todos` table
(`verk4.sql`, `src/unnamed/part_000`): `id serial primary key`,
`title varchar(128) not null`, `due timestamptz`, `position int`,
`completed boolean`, `created`/`updated timestamptz`.  Timestamps are
modelled as abstract clock values (`Nat`); `due` keeps the accepted
input string. -/
structure Row where
  id : Int
  title : String
  due : Option String
  position : Int
  completed : Bool
  created : Nat
  updated : Nat
deriving DecidableEq, Repr

/-- Errors a parameterized statement can raise at bind/execute time. -/
inductive SqlErr where
  | nullViolation
  | unmodelledNull
  | stringTooLong
  | badInt
  | badBool
  | badTimestamp
  | emptySetClause
  | paramMismatch
  | unknownColumn
deriving DecidableEq, Repr

/-- Parse a digit list as a natural number; `none` when the list is
empty or holds a non-digit. -/
def digitsToNat : List Char → Option Nat
  | [] => none
  | l => if l.all Char.isDigit then
      some (l.foldl (fun acc c => acc * 10 + (c.toNat - 48)) 0)
    else none

/-- Modelled from PostgreSQL `int4in`: an optional sign followed by
digits. -/
def parseIntChars (l : List Char) : Option Int :=
  if l.head? = some '-' then
    (digitsToNat l.tail).map (fun n => -(n : Int))
  else if l.head? = some '+' then
    (digitsToNat l.tail).map (fun n => (n : Int))
  else
    (digitsToNat l).map (fun n => (n : Int))

/-- Cast a text parameter to `character varying(128)`: fails when the
string is longer than 128 characters. -/
def castVarchar128 (s : String) : Except SqlErr String :=
  if s.length ≤ 128 then .ok s else .error .stringTooLong

/-- Cast a text parameter to `int`. -/
def castInt4 (s : String) : Except SqlErr Int :=
  match parseIntChars s.data with
  | some n => .ok n
  | none => .error .badInt

/-- Cast a text parameter to `boolean`.  (PostgreSQL accepts a few
more spellings; the embedded code only ever sends `xss` output, for
which `true` is the only reachable true spelling.) -/
def castBool (s : String) : Except SqlErr Bool :=
  if s == "true" then .ok true
  else if s == "false" then .ok false
  else .error .badBool

/-- Cast a text parameter to `timestamp with time zone`.  Strings in
the modelled ISO 8601 subset are kept verbatim; everything else
(in particular the empty string) fails. -/
def castTimestamp (s : String) : Except SqlErr String :=
  if isISO8601 s then .ok s else .error .badTimestamp

/-- The `INSERT INTO todos(title, position, completed, due)
VALUES($1,$2,$3,$4) RETURNING *` statement issued by `create`.
Parameters are driver-bound text values (`none` would be SQL NULL;
the embedded code always binds strings).  `title` is checked against
its NOT NULL constraint; a NULL in one of the nullable columns is
outside the modelled fragment (the code never binds one).  `id`
comes from the `serial` sequence, `created`/`updated` from their
`current_timestamp` defaults. -/
def insertTodo (db : List Row) (nextId : Int) (now : Nat)
    (p1 p2 p3 p4 : Option String) : Except SqlErr (List Row × Row) :=
  match p1, p2, p3, p4 with
  | none, _, _, _ => .error .nullViolation
  | _, none, _, _ => .error .unmodelledNull
  | _, _, none, _ => .error .unmodelledNull
  | _, _, _, none => .error .unmodelledNull
  | some s1, some s2, some s3, some s4 =>
    match castVarchar128 s1, castInt4 s2, castBool s3, castTimestamp s4 with
    | .error e, _, _, _ => .error e
    | _, .error e, _, _ => .error e
    | _, _, .error e, _ => .error e
    | _, _, _, .error e => .error e
    | .ok t, .ok pos, .ok c, .ok d =>
      .ok (db ++ [⟨nextId, t, some d, pos, c, now, now⟩],
        ⟨nextId, t, some d, pos, c, now, now⟩)

/-- The result object `create` resolves with. -/
structure CreateResult where
  success : Bool
  validation : List VErr
  item : Option Row
deriving DecidableEq, Repr

/-- `create` from `src/todos.js`: validate, on failure return
`{success:false, validation, item:null}` without touching the
database; otherwise sanitize all four fields with `xss` and run the
INSERT.  A database error propagates (the promise rejects); the
failed statement leaves the table unchanged. -/
def create (db : List Row) (nextId : Int) (now : Nat) (t : TodoInput) :
    List Row × Except SqlErr CreateResult :=
  let validation := validateTodo t
  if validation.length > 0 then
    (db, .ok ⟨false, validation, none⟩)
  else
    match insertTodo db nextId now
        (some (xss t.title)) (some (xss t.position))
        (some (xss t.completed)) (some (xss t.due)) with
    | .error e => (db, .error e)
    | .ok (db', r) => (db', .ok ⟨true, [], some r⟩)

/-- Insert an element into a list sorted by the boolean relation
`le` (the comparison step of a sort; used to give `ORDER BY` an
executable meaning). -/
def insertSorted {α : Type} (le : α → α → Bool) (r : α) : List α → List α
  | [] => [r]
  | s :: rest => if le r s then r :: s :: rest else s :: insertSorted le r rest

/-- Insertion sort by the boolean relation `le`: the executable
meaning of `ORDER BY` (the SQL standard fixes the ordering only up to
ties). -/
def isort {α : Type} (le : α → α → Bool) : List α → List α
  | [] => []
  | r :: rest => insertSorted le r (isort le rest)

/-- `ORDER BY position ASC` comparison. -/
def rowLeAsc (r s : Row) : Bool := decide (r.position ≤ s.position)

/-- `ORDER BY position DESC` comparison. -/
def rowLeDesc (r s : Row) : Bool := decide (s.position ≤ r.position)

/-- `readAll` from `src/todos.js`: the `order` parameter defaults to
`'ASC'` when absent, `DESC` is selected exactly when
`order.toLowerCase() === 'desc'`; when `completed` is the string
`'true'` or `'false'` the rows are filtered by
`WHERE completed = $1` (the text parameter cast to boolean),
otherwise all rows are returned; rows are ordered by `position`. -/
def readAll (db : List Row) (order : Option String)
    (completed : Option String) : List Row :=
  let o := order.getD "ASC"
  let le := if o.toLower == "desc" then rowLeDesc else rowLeAsc
  match completed with
  | some c =>
    if c == "false" || c == "true" then
      isort le (db.filter (fun r => r.completed == (c == "true")))
    else
      isort le db
  | none => isort le db

/-- The five columns named by `update`'s
`RETURNING id, title, due, position, completed` (note: no `created`,
no `updated`). -/
structure ItemView where
  id : Int
  title : String
  due : Option String
  position : Int
  completed : Bool
deriving DecidableEq, Repr

/-- Project a row onto the columns listed in `update`'s RETURNING
clause. -/
def toView (r : Row) : ItemView :=
  ⟨r.id, r.title, r.due, r.position, r.completed⟩

/-- The result object `update` resolves with.  The source's branches
return objects with different key sets; a key a branch omits reads as
`undefined` in JavaScript and is modelled here by the falsy/empty
value of its field type (`false`, `[]`, `none`). -/
structure UpdateResult where
  success : Bool
  notFound : Bool
  validation : List VErr
  item : Option ItemView
deriving DecidableEq, Repr

/-- `changedColumns` from `update` in `src/todos.js`: the column name
for each present field, in source order, with the `null` entries
dropped by `.filter(Boolean)` (the name literals are nonempty, so the
filter keeps all of them). -/
def changedColumns (t : TodoInput) : List String :=
  [if !isEmpty t.title then some "title" else none,
   if !isEmpty t.due then some "due" else none,
   if !isEmpty t.position then some "position" else none,
   if !isEmpty t.completed then some "completed" else none].filterMap id

/-- `changedValues` from `update` in `src/todos.js`: the sanitized
value for each present field, in source order; `.filter(Boolean)`
drops the `null` entries and also every empty string (a falsy
value), which is how a sanitized `xss(0)` or `xss(false)` — both
`""` — disappears from the value list. -/
def changedValues (t : TodoInput) : List String :=
  ([if !isEmpty t.title then some (xss t.title) else none,
    if !isEmpty t.due then some (xss t.due) else none,
    if !isEmpty t.position then some (xss t.position) else none,
    if !isEmpty t.completed then some (xss t.completed) else none].filterMap
    id).filter (fun s => !(s == ""))

/-- A typed single-column assignment of the dynamic `SET` clause,
after parameter casting. -/
inductive ColUpd where
  | setTitle (s : String)
  | setDue (s : String)
  | setPosition (n : Int)
  | setCompleted (b : Bool)
deriving DecidableEq, Repr

/-- Cast one `column = $k` pair of the dynamic `SET` clause against
the column's type. -/
def castCol (col : String) (v : String) : Except SqlErr ColUpd :=
  if col == "title" then ColUpd.setTitle <$> castVarchar128 v
  else if col == "due" then ColUpd.setDue <$> castTimestamp v
  else if col == "position" then ColUpd.setPosition <$> castInt4 v
  else if col == "completed" then ColUpd.setCompleted <$> castBool v
  else .error .unknownColumn

/-- Cast every pair of the dynamic `SET` clause (parameter casting
happens once per statement, not per affected row). -/
def castCols : List (String × String) → Except SqlErr (List ColUpd)
  | [] => .ok []
  | (c, v) :: rest =>
    match castCol c v with
    | .error e => .error e
    | .ok u =>
      match castCols rest with
      | .error e => .error e
      | .ok us => .ok (u :: us)

/-- Apply one typed assignment to a row. -/
def applyUpd (r : Row) : ColUpd → Row
  | .setTitle s => { r with title := s }
  | .setDue s => { r with due := some s }
  | .setPosition n => { r with position := n }
  | .setCompleted b => { r with completed := b }

/-- Apply all assignments of the `SET` clause to a row. -/
def applyUpds (r : Row) (us : List ColUpd) : Row := us.foldl applyUpd r

/-- Execute the dynamically built
`UPDATE todos SET ... WHERE id = $1 RETURNING id, title, due,
position, completed` statement.  An empty column list leaves a bare
`SET` keyword, a syntax error; a column list longer or shorter than
the value list makes the placeholder numbers disagree with the bound
parameters, which the driver rejects; otherwise each affected row
gets the casted assignments and `rows[0]` is projected by the
RETURNING clause. -/
def execUpdate (db : List Row) (id : Int) (cols : List String)
    (vals : List String) : Except SqlErr (List Row × Option ItemView) :=
  if cols.isEmpty then .error .emptySetClause
  else if cols.length ≠ vals.length then .error .paramMismatch
  else
    match castCols (cols.zip vals) with
    | .error e => .error e
    | .ok us =>
      .ok (db.map (fun r => if r.id == id then applyUpds r us else r),
        ((db.filter (fun r => r.id == id)).head?).map
          (fun r => toView (applyUpds r us)))

/-- `update` from `src/todos.js` (the active, uncommented variant):
first `SELECT * FROM todos where id = $1`; an empty result returns
`{success:false, notFound:true, validation:[]}` before any
validation; then `validateTodo`; a nonempty error list returns
`{success:false, notFound:false, validation}`; otherwise the dynamic
UPDATE runs on the changed columns and values.  A database error
propagates (the promise rejects) and the failed statement leaves the
table unchanged.  No branch touches the `updated` column. -/
def update (db : List Row) (id : Int) (t : TodoInput) :
    List Row × Except SqlErr UpdateResult :=
  let found := db.filter (fun r => r.id == id)
  if found.isEmpty then
    (db, .ok ⟨false, true, [], none⟩)
  else
    let validationResult := validateTodo t
    if validationResult.length > 0 then
      (db, .ok ⟨false, false, validationResult, none⟩)
    else
      match execUpdate db id (changedColumns t) (changedValues t) with
      | .error e => (db, .error e)
      | .ok (db', item) => (db', .ok ⟨true, false, [], item⟩)

/-- `del` from `src/todos.js`: `DELETE FROM todos WHERE id = $1`,
returning `result.rowCount === 1`. -/
def del (db : List Row) (id : Int) : List Row × Bool :=
  (db.filter (fun r => !(r.id == id)),
   db.countP (fun r => r.id == id) == 1)

/-- `deleteRoute` from `src/api.js`: HTTP 204 when `del` resolves
with `true`, HTTP 404 otherwise. -/
def deleteRoute (db : List Row) (id : Int) : List Row × Nat :=
  let (db', ok) := del db id
  (db', if ok then 204 else 404)

/-! ## Helper lemmas -/

theorem filter_id_eq_nil {db : List Row} {id : Int}
    (h : ∀ r ∈ db, r.id ≠ id) :
    db.filter (fun r => r.id == id) = [] := by
  rw [List.filter_eq_nil_iff]
  intro r hr
  simpa using h r hr

theorem countP_id_eq_one {db : List Row} {id : Int}
    (hu : (db.map Row.id).Nodup) (hex : ∃ r ∈ db, r.id = id) :
    db.countP (fun r => r.id == id) = 1 := by
  induction db with
  | nil => obtain ⟨r, hr, _⟩ := hex; cases hr
  | cons a rest ih =>
    rw [List.map_cons, List.nodup_cons] at hu
    by_cases ha : a.id = id
    · rw [List.countP_cons]
      have hz : rest.countP (fun r => r.id == id) = 0 := by
        rw [List.countP_eq_zero]
        intro x hx
        simp only [beq_iff_eq]
        intro hxid
        apply hu.1
        rw [ha, ← hxid]
        exact List.mem_map_of_mem Row.id hx
      simp [hz, ha]
    · rw [List.countP_cons]
      have hex' : ∃ r ∈ rest, r.id = id := by
        obtain ⟨r, hr, hrid⟩ := hex
        rcases List.mem_cons.mp hr with h1 | h2
        · exact absurd (h1 ▸ hrid) ha
        · exact ⟨r, h2, hrid⟩
      simp [ih hu.2 hex', ha]

theorem applyUpds_id (r : Row) (us : List ColUpd) :
    (applyUpds r us).id = r.id := by
  induction us generalizing r with
  | nil => rfl
  | cons u rest ih =>
    have hstep : applyUpds r (u :: rest) = applyUpds (applyUpd r u) rest := rfl
    rw [hstep, ih]
    cases u <;> rfl

theorem applyUpds_created (r : Row) (us : List ColUpd) :
    (applyUpds r us).created = r.created := by
  induction us generalizing r with
  | nil => rfl
  | cons u rest ih =>
    have hstep : applyUpds r (u :: rest) = applyUpds (applyUpd r u) rest := rfl
    rw [hstep, ih]
    cases u <;> rfl

theorem applyUpds_updated (r : Row) (us : List ColUpd) :
    (applyUpds r us).updated = r.updated := by
  induction us generalizing r with
  | nil => rfl
  | cons u rest ih =>
    have hstep : applyUpds r (u :: rest) = applyUpds (applyUpd r u) rest := rfl
    rw [hstep, ih]
    cases u <;> rfl

theorem applyUpds_title (r : Row) (us : List ColUpd)
    (h : ∀ s, ColUpd.setTitle s ∉ us) : (applyUpds r us).title = r.title := by
  induction us generalizing r with
  | nil => rfl
  | cons u rest ih =>
    have hstep : applyUpds r (u :: rest) = applyUpds (applyUpd r u) rest := rfl
    rw [hstep, ih _ (fun s hs => h s (List.mem_cons_of_mem u hs))]
    cases u with
    | setTitle s => exact absurd (List.mem_cons_self _ _) (h s)
    | setDue s => rfl
    | setPosition n => rfl
    | setCompleted b => rfl

theorem applyUpds_due (r : Row) (us : List ColUpd)
    (h : ∀ s, ColUpd.setDue s ∉ us) : (applyUpds r us).due = r.due := by
  induction us generalizing r with
  | nil => rfl
  | cons u rest ih =>
    have hstep : applyUpds r (u :: rest) = applyUpds (applyUpd r u) rest := rfl
    rw [hstep, ih _ (fun s hs => h s (List.mem_cons_of_mem u hs))]
    cases u with
    | setDue s => exact absurd (List.mem_cons_self _ _) (h s)
    | setTitle s => rfl
    | setPosition n => rfl
    | setCompleted b => rfl

theorem applyUpds_position (r : Row) (us : List ColUpd)
    (h : ∀ n, ColUpd.setPosition n ∉ us) :
    (applyUpds r us).position = r.position := by
  induction us generalizing r with
  | nil => rfl
  | cons u rest ih =>
    have hstep : applyUpds r (u :: rest) = applyUpds (applyUpd r u) rest := rfl
    rw [hstep, ih _ (fun n hn => h n (List.mem_cons_of_mem u hn))]
    cases u with
    | setPosition n => exact absurd (List.mem_cons_self _ _) (h n)
    | setTitle s => rfl
    | setDue s => rfl
    | setCompleted b => rfl

theorem applyUpds_completed (r : Row) (us : List ColUpd)
    (h : ∀ b, ColUpd.setCompleted b ∉ us) :
    (applyUpds r us).completed = r.completed := by
  induction us generalizing r with
  | nil => rfl
  | cons u rest ih =>
    have hstep : applyUpds r (u :: rest) = applyUpds (applyUpd r u) rest := rfl
    rw [hstep, ih _ (fun b hb => h b (List.mem_cons_of_mem u hb))]
    cases u with
    | setCompleted b => exact absurd (List.mem_cons_self _ _) (h b)
    | setTitle s => rfl
    | setDue s => rfl
    | setPosition n => rfl

theorem castCols_mem {ps : List (String × String)} {us : List ColUpd}
    (h : castCols ps = .ok us) :
    ∀ u ∈ us, ∃ p ∈ ps, castCol p.1 p.2 = .ok u := by
  induction ps generalizing us with
  | nil =>
    simp only [castCols, Except.ok.injEq] at h
    subst h
    intro u hu
    cases hu
  | cons p rest ih =>
    obtain ⟨c, v⟩ := p
    simp only [castCols] at h
    cases hc : castCol c v with
    | error e => rw [hc] at h; cases h
    | ok u0 =>
      rw [hc] at h
      cases hr : castCols rest with
      | error e => rw [hr] at h; cases h
      | ok us' =>
        rw [hr] at h
        simp only [Except.ok.injEq] at h
        subst h
        intro u hu
        rcases List.mem_cons.mp hu with h1 | h2
        · exact ⟨(c, v), List.mem_cons_self _ _, h1 ▸ hc⟩
        · obtain ⟨q, hq, hqc⟩ := ih hr u h2
          exact ⟨q, List.mem_cons_of_mem _ hq, hqc⟩

theorem castCol_setTitle {c v : String} {s : String}
    (h : castCol c v = .ok (ColUpd.setTitle s)) :
    c = "title" ∧ castVarchar128 v = .ok s := by
  unfold castCol at h
  by_cases h1 : c = "title"
  · rw [if_pos (by simp [h1])] at h
    cases hc : castVarchar128 v with
    | error e => rw [hc] at h; simp at h
    | ok a =>
      rw [hc] at h
      simp only [Except.map_ok, Except.ok.injEq, ColUpd.setTitle.injEq] at h
      exact ⟨h1, by rw [h]⟩
  · rw [if_neg (by simp [h1])] at h
    by_cases h2 : c = "due"
    · rw [if_pos (by simp [h2])] at h
      cases hc : castTimestamp v <;> rw [hc] at h <;> simp at h
    · rw [if_neg (by simp [h2])] at h
      by_cases h3 : c = "position"
      · rw [if_pos (by simp [h3])] at h
        cases hc : castInt4 v <;> rw [hc] at h <;> simp at h
      · rw [if_neg (by simp [h3])] at h
        by_cases h4 : c = "completed"
        · rw [if_pos (by simp [h4])] at h
          cases hc : castBool v <;> rw [hc] at h <;> simp at h
        · rw [if_neg (by simp [h4])] at h
          cases h

theorem castCol_setDue {c v : String} {s : String}
    (h : castCol c v = .ok (ColUpd.setDue s)) :
    c = "due" ∧ castTimestamp v = .ok s := by
  unfold castCol at h
  by_cases h1 : c = "title"
  · rw [if_pos (by simp [h1])] at h
    cases hc : castVarchar128 v <;> rw [hc] at h <;> simp at h
  · rw [if_neg (by simp [h1])] at h
    by_cases h2 : c = "due"
    · rw [if_pos (by simp [h2])] at h
      cases hc : castTimestamp v with
      | error e => rw [hc] at h; simp at h
      | ok a =>
        rw [hc] at h
        simp only [Except.map_ok, Except.ok.injEq, ColUpd.setDue.injEq] at h
        exact ⟨h2, by rw [h]⟩
    · rw [if_neg (by simp [h2])] at h
      by_cases h3 : c = "position"
      · rw [if_pos (by simp [h3])] at h
        cases hc : castInt4 v <;> rw [hc] at h <;> simp at h
      · rw [if_neg (by simp [h3])] at h
        by_cases h4 : c = "completed"
        · rw [if_pos (by simp [h4])] at h
          cases hc : castBool v <;> rw [hc] at h <;> simp at h
        · rw [if_neg (by simp [h4])] at h
          cases h

theorem castCol_setPosition {c v : String} {n : Int}
    (h : castCol c v = .ok (ColUpd.setPosition n)) :
    c = "position" ∧ castInt4 v = .ok n := by
  unfold castCol at h
  by_cases h1 : c = "title"
  · rw [if_pos (by simp [h1])] at h
    cases hc : castVarchar128 v <;> rw [hc] at h <;> simp at h
  · rw [if_neg (by simp [h1])] at h
    by_cases h2 : c = "due"
    · rw [if_pos (by simp [h2])] at h
      cases hc : castTimestamp v <;> rw [hc] at h <;> simp at h
    · rw [if_neg (by simp [h2])] at h
      by_cases h3 : c = "position"
      · rw [if_pos (by simp [h3])] at h
        cases hc : castInt4 v with
        | error e => rw [hc] at h; simp at h
        | ok a =>
          rw [hc] at h
          simp only [Except.map_ok, Except.ok.injEq,
            ColUpd.setPosition.injEq] at h
          exact ⟨h3, by rw [h]⟩
      · rw [if_neg (by simp [h3])] at h
        by_cases h4 : c = "completed"
        · rw [if_pos (by simp [h4])] at h
          cases hc : castBool v <;> rw [hc] at h <;> simp at h
        · rw [if_neg (by simp [h4])] at h
          cases h

theorem castCol_setCompleted {c v : String} {b : Bool}
    (h : castCol c v = .ok (ColUpd.setCompleted b)) :
    c = "completed" ∧ castBool v = .ok b := by
  unfold castCol at h
  by_cases h1 : c = "title"
  · rw [if_pos (by simp [h1])] at h
    cases hc : castVarchar128 v <;> rw [hc] at h <;> simp at h
  · rw [if_neg (by simp [h1])] at h
    by_cases h2 : c = "due"
    · rw [if_pos (by simp [h2])] at h
      cases hc : castTimestamp v <;> rw [hc] at h <;> simp at h
    · rw [if_neg (by simp [h2])] at h
      by_cases h3 : c = "position"
      · rw [if_pos (by simp [h3])] at h
        cases hc : castInt4 v <;> rw [hc] at h <;> simp at h
      · rw [if_neg (by simp [h3])] at h
        by_cases h4 : c = "completed"
        · rw [if_pos (by simp [h4])] at h
          cases hc : castBool v with
          | error e => rw [hc] at h; simp at h
          | ok a =>
            rw [hc] at h
            simp only [Except.map_ok, Except.ok.injEq,
              ColUpd.setCompleted.injEq] at h
            exact ⟨h4, by rw [h]⟩
        · rw [if_neg (by simp [h4])] at h
          cases h

theorem title_not_mem_changed {t : TodoInput} (h : isEmpty t.title = true) :
    ¬ ("title" ∈ changedColumns t) := by
  intro hmem
  unfold changedColumns at hmem
  rw [h] at hmem
  simp only [List.mem_filterMap, id_eq] at hmem
  obtain ⟨a, ha, hae⟩ := hmem
  subst hae
  simp only [Bool.not_true, Bool.false_eq_true, if_false, List.mem_cons,
    List.not_mem_nil, or_false] at ha
  rcases ha with h1 | h1 | h1 | h1 <;>
    first
      | exact Option.noConfusion h1
      | (split at h1 <;>
          [exact absurd (Option.some.inj h1) (by decide);
           exact Option.noConfusion h1])

theorem due_not_mem_changed {t : TodoInput} (h : isEmpty t.due = true) :
    ¬ ("due" ∈ changedColumns t) := by
  intro hmem
  unfold changedColumns at hmem
  rw [h] at hmem
  simp only [List.mem_filterMap, id_eq] at hmem
  obtain ⟨a, ha, hae⟩ := hmem
  subst hae
  simp only [Bool.not_true, Bool.false_eq_true, if_false, List.mem_cons,
    List.not_mem_nil, or_false] at ha
  rcases ha with h1 | h1 | h1 | h1 <;>
    first
      | exact Option.noConfusion h1
      | (split at h1 <;>
          [exact absurd (Option.some.inj h1) (by decide);
           exact Option.noConfusion h1])

theorem position_not_mem_changed {t : TodoInput}
    (h : isEmpty t.position = true) :
    ¬ ("position" ∈ changedColumns t) := by
  intro hmem
  unfold changedColumns at hmem
  rw [h] at hmem
  simp only [List.mem_filterMap, id_eq] at hmem
  obtain ⟨a, ha, hae⟩ := hmem
  subst hae
  simp only [Bool.not_true, Bool.false_eq_true, if_false, List.mem_cons,
    List.not_mem_nil, or_false] at ha
  rcases ha with h1 | h1 | h1 | h1 <;>
    first
      | exact Option.noConfusion h1
      | (split at h1 <;>
          [exact absurd (Option.some.inj h1) (by decide);
           exact Option.noConfusion h1])

theorem completed_not_mem_changed {t : TodoInput}
    (h : isEmpty t.completed = true) :
    ¬ ("completed" ∈ changedColumns t) := by
  intro hmem
  unfold changedColumns at hmem
  rw [h] at hmem
  simp only [List.mem_filterMap, id_eq] at hmem
  obtain ⟨a, ha, hae⟩ := hmem
  subst hae
  simp only [Bool.not_true, Bool.false_eq_true, if_false, List.mem_cons,
    List.not_mem_nil, or_false] at ha
  rcases ha with h1 | h1 | h1 | h1 <;>
    first
      | exact Option.noConfusion h1
      | (split at h1 <;>
          [exact absurd (Option.some.inj h1) (by decide);
           exact Option.noConfusion h1])

theorem no_setTitle {t : TodoInput} {us : List ColUpd}
    (hemp : isEmpty t.title = true)
    (hcast : castCols ((changedColumns t).zip (changedValues t)) = .ok us) :
    ∀ s, ColUpd.setTitle s ∉ us := by
  intro s hs
  obtain ⟨p, hp, hpc⟩ := castCols_mem hcast _ hs
  have hc1 := (castCol_setTitle hpc).1
  have hmem := (List.of_mem_zip hp).1
  rw [hc1] at hmem
  exact title_not_mem_changed hemp hmem

theorem no_setDue {t : TodoInput} {us : List ColUpd}
    (hemp : isEmpty t.due = true)
    (hcast : castCols ((changedColumns t).zip (changedValues t)) = .ok us) :
    ∀ s, ColUpd.setDue s ∉ us := by
  intro s hs
  obtain ⟨p, hp, hpc⟩ := castCols_mem hcast _ hs
  have hc1 := (castCol_setDue hpc).1
  have hmem := (List.of_mem_zip hp).1
  rw [hc1] at hmem
  exact due_not_mem_changed hemp hmem

theorem no_setPosition {t : TodoInput} {us : List ColUpd}
    (hemp : isEmpty t.position = true)
    (hcast : castCols ((changedColumns t).zip (changedValues t)) = .ok us) :
    ∀ n, ColUpd.setPosition n ∉ us := by
  intro n hn
  obtain ⟨p, hp, hpc⟩ := castCols_mem hcast _ hn
  have hc1 := (castCol_setPosition hpc).1
  have hmem := (List.of_mem_zip hp).1
  rw [hc1] at hmem
  exact position_not_mem_changed hemp hmem

theorem no_setCompleted {t : TodoInput} {us : List ColUpd}
    (hemp : isEmpty t.completed = true)
    (hcast : castCols ((changedColumns t).zip (changedValues t)) = .ok us) :
    ∀ b, ColUpd.setCompleted b ∉ us := by
  intro b hb
  obtain ⟨p, hp, hpc⟩ := castCols_mem hcast _ hb
  have hc1 := (castCol_setCompleted hpc).1
  have hmem := (List.of_mem_zip hp).1
  rw [hc1] at hmem
  exact completed_not_mem_changed hemp hmem

theorem insertSorted_perm {α : Type} (le : α → α → Bool) (r : α)
    (l : List α) : (insertSorted le r l).Perm (r :: l) := by
  induction l with
  | nil => exact List.Perm.refl _
  | cons s rest ih =>
    unfold insertSorted
    split
    · exact List.Perm.refl _
    · exact (List.Perm.cons s ih).trans (List.Perm.swap r s rest)

theorem isort_perm {α : Type} (le : α → α → Bool) (l : List α) :
    (isort le l).Perm l := by
  induction l with
  | nil => exact List.Perm.refl _
  | cons r rest ih =>
    exact (insertSorted_perm le r (isort le rest)).trans (List.Perm.cons r ih)

theorem mem_insertSorted {α : Type} {le : α → α → Bool} {x r : α}
    {l : List α} : x ∈ insertSorted le r l ↔ x = r ∨ x ∈ l := by
  rw [(insertSorted_perm le r l).mem_iff]
  exact List.mem_cons

theorem insertSorted_pairwise {α : Type} {le : α → α → Bool}
    (htot : ∀ a b, le a b = false → le b a = true)
    (htrans : ∀ a b c, le a b = true → le b c = true → le a c = true)
    {r : α} {l : List α} (hp : l.Pairwise (fun a b => le a b = true)) :
    (insertSorted le r l).Pairwise (fun a b => le a b = true) := by
  induction l with
  | nil => simp [insertSorted]
  | cons s rest ih =>
    have hs : ∀ x ∈ rest, le s x = true :=
      fun x hx => List.rel_of_pairwise_cons hp hx
    have hrest := List.Pairwise.of_cons hp
    unfold insertSorted
    by_cases h : le r s = true
    · rw [if_pos h]
      refine List.Pairwise.cons ?_ hp
      intro x hx
      rcases List.mem_cons.mp hx with h1 | h2
      · rw [h1]; exact h
      · exact htrans r s x h (hs x h2)
    · rw [if_neg h]
      refine List.Pairwise.cons ?_ (ih hrest)
      intro x hx
      rcases mem_insertSorted.mp hx with h1 | h2
      · rw [h1]; exact htot r s (Bool.eq_false_iff.mpr h)
      · exact hs x h2

theorem isort_pairwise {α : Type} {le : α → α → Bool}
    (htot : ∀ a b, le a b = false → le b a = true)
    (htrans : ∀ a b c, le a b = true → le b c = true → le a c = true)
    (l : List α) : (isort le l).Pairwise (fun a b => le a b = true) := by
  induction l with
  | nil => simp [isort]
  | cons r rest ih =>
    exact insertSorted_pairwise htot htrans ih

theorem rowLeAsc_total (a b : Row) :
    rowLeAsc a b = false → rowLeAsc b a = true := by
  unfold rowLeAsc
  intro h
  simp only [decide_eq_false_iff_not, not_le] at h
  simpa using le_of_lt h

theorem rowLeAsc_trans (a b c : Row) :
    rowLeAsc a b = true → rowLeAsc b c = true → rowLeAsc a c = true := by
  unfold rowLeAsc
  intro h1 h2
  simp only [decide_eq_true_eq] at h1 h2
  simpa using le_trans h1 h2

theorem rowLeDesc_total (a b : Row) :
    rowLeDesc a b = false → rowLeDesc b a = true := by
  unfold rowLeDesc
  intro h
  simp only [decide_eq_false_iff_not, not_le] at h
  simpa using le_of_lt h

theorem rowLeDesc_trans (a b c : Row) :
    rowLeDesc a b = true → rowLeDesc b c = true → rowLeDesc a c = true := by
  unfold rowLeDesc
  intro h1 h2
  simp only [decide_eq_true_eq] at h1 h2
  simpa using le_trans h2 h1

theorem isPrefixOf_neutralize :
    ∀ pre : List Char, (∀ c ∈ pre, c ≠ '<' ∧ c ≠ '&') →
    ∀ l, pre.isPrefixOf (neutralize l) = pre.isPrefixOf l := by
  intro pre
  induction pre with
  | nil => intro _ l; simp [List.isPrefixOf]
  | cons c pre ih =>
    intro hp l
    have hc := hp c (List.mem_cons_self c pre)
    have hp' : ∀ d ∈ pre, d ≠ '<' ∧ d ≠ '&' :=
      fun d hd => hp d (List.mem_cons_of_mem c hd)
    cases l with
    | nil => rfl
    | cons d r =>
      by_cases hd : (d == '<' && isScriptStart r) = true
      · have hne : neutralize (d :: r) =
            '&' :: 'l' :: 't' :: ';' :: neutralize r := by
          simp only [neutralize]; rw [if_pos hd]
        have hdlt : d = '<' :=
          beq_iff_eq.mp ((Bool.and_eq_true _ _).mp hd).1
        have h1 : (c == '&') = false := by simp [hc.2]
        have h2 : (c == '<') = false := by simp [hc.1]
        rw [hne, hdlt]
        simp [List.isPrefixOf, h1, h2]
      · have hne : neutralize (d :: r) = d :: neutralize r := by
          simp only [neutralize]; rw [if_neg hd]
        rw [hne]
        simp only [List.isPrefixOf]
        rw [ih hp' r]

theorem isScriptStart_neutralize (l : List Char) :
    isScriptStart (neutralize l) = isScriptStart l := by
  unfold isScriptStart
  rw [isPrefixOf_neutralize scriptChars (by decide) l,
    isPrefixOf_neutralize ('/' :: scriptChars) (by decide) l]

theorem containsScriptTag_neutralize (l : List Char) :
    containsScriptTag (neutralize l) = false := by
  induction l with
  | nil => rfl
  | cons c r ih =>
    by_cases hd : (c == '<' && isScriptStart r) = true
    · have hne : neutralize (c :: r) =
          '&' :: 'l' :: 't' :: ';' :: neutralize r := by
        simp only [neutralize]; rw [if_pos hd]
      rw [hne]
      simp [containsScriptTag, ih,
        (by decide : ('&' == '<') = false),
        (by decide : ('l' == '<') = false),
        (by decide : ('t' == '<') = false),
        (by decide : (';' == '<') = false)]
    · have hne : neutralize (c :: r) = c :: neutralize r := by
        simp only [neutralize]; rw [if_neg hd]
      rw [hne]
      simp only [containsScriptTag, ih, Bool.or_false]
      rw [isScriptStart_neutralize]
      simpa using hd

theorem containsScriptTag_xss (v : JVal) :
    containsScriptTag (xss v).data = false := by
  unfold xss
  by_cases ht : jsTruthy v = true
  · rw [if_pos ht]
    exact containsScriptTag_neutralize (stripComments (jsToString v).data)
  · rw [if_neg ht]
    rfl

theorem castVarchar128_ok {s a : String} (h : castVarchar128 s = .ok a) :
    a = s ∧ s.length ≤ 128 := by
  unfold castVarchar128 at h
  split at h
  · simp only [Except.ok.injEq] at h
    exact ⟨h.symm, by assumption⟩
  · cases h

theorem castTimestamp_ok {s a : String} (h : castTimestamp s = .ok a) :
    a = s ∧ isISO8601 s = true := by
  unfold castTimestamp at h
  split at h
  · simp only [Except.ok.injEq] at h
    exact ⟨h.symm, by assumption⟩
  · cases h

theorem castInt4_ok {s : String} {n : Int} (h : castInt4 s = .ok n) :
    parseIntChars s.data = some n := by
  unfold castInt4 at h
  cases hp : parseIntChars s.data with
  | none => rw [hp] at h; cases h
  | some m => rw [hp] at h; simp only [Except.ok.injEq] at h; rw [h]

theorem castBool_ok {s : String} {b : Bool} (h : castBool s = .ok b) :
    (s = "true" ∧ b = true) ∨ (s = "false" ∧ b = false) := by
  unfold castBool at h
  by_cases h1 : (s == "true") = true
  · rw [if_pos h1] at h
    simp only [Except.ok.injEq] at h
    exact Or.inl ⟨beq_iff_eq.mp h1, h.symm⟩
  · rw [if_neg h1] at h
    by_cases h2 : (s == "false") = true
    · rw [if_pos h2] at h
      simp only [Except.ok.injEq] at h
      exact Or.inr ⟨beq_iff_eq.mp h2, h.symm⟩
    · rw [if_neg h2] at h
      cases h

theorem digitChar_isDigit {m : Nat} (h : m < 10) :
    (Nat.digitChar m).isDigit = true := by
  interval_cases m <;> decide

theorem natDigitsAux_digits (fuel : Nat) :
    ∀ n, ∀ c ∈ natDigitsAux fuel n, c.isDigit = true := by
  induction fuel with
  | zero => intro n c hc; cases hc
  | succ fuel ih =>
    intro n c hc
    unfold natDigitsAux at hc
    by_cases hn : n < 10
    · rw [if_pos hn] at hc
      rcases List.mem_singleton.mp hc with rfl
      exact digitChar_isDigit hn
    · rw [if_neg hn] at hc
      rcases List.mem_append.mp hc with h1 | h1
      · exact ih (n / 10) c h1
      · rcases List.mem_singleton.mp h1 with rfl
        exact digitChar_isDigit (Nat.mod_lt n (by omega))

theorem natToStr_digits (n : Nat) : ∀ c ∈ natToStr n, c.isDigit = true :=
  natDigitsAux_digits (n + 1) n

theorem natToStr_ne_nil (n : Nat) : natToStr n ≠ [] := by
  unfold natToStr natDigitsAux
  by_cases hn : n < 10
  · rw [if_pos hn]; simp
  · rw [if_neg hn]; simp

theorem neutralize_eq_self {l : List Char}
    (h : ∀ c ∈ l, (c == '<') = false) : neutralize l = l := by
  induction l with
  | nil => rfl
  | cons c r ih =>
    have hc := h c (List.mem_cons_self c r)
    have hr : ∀ d ∈ r, (d == '<') = false :=
      fun d hd => h d (List.mem_cons_of_mem c hd)
    simp only [neutralize, hc, Bool.false_and, Bool.false_eq_true,
      if_false]
    rw [ih hr]

theorem parseIntChars_nonneg {l : List Char} {n : Int}
    (h : parseIntChars l = some n) (hh : l.head? ≠ some '-') : 0 ≤ n := by
  unfold parseIntChars at h
  rw [if_neg hh] at h
  by_cases h2 : l.head? = some '+'
  · rw [if_pos h2] at h
    cases hd : digitsToNat l.tail with
    | none => rw [hd] at h; cases h
    | some m => rw [hd] at h; simp at h; omega
  · rw [if_neg h2] at h
    cases hd : digitsToNat l with
    | none => rw [hd] at h; cases h
    | some m => rw [hd] at h; simp at h; omega

theorem stripCommentsAux_eq_self :
    ∀ fuel : Nat, ∀ l : List Char, l.length ≤ fuel →
      (∀ c ∈ l, (c == '<') = false) →
      stripCommentsAux fuel false l = l := by
  intro fuel
  induction fuel with
  | zero =>
    intro l hl _
    rw [List.eq_nil_of_length_eq_zero (Nat.le_zero.mp hl)]
    rfl
  | succ fuel ih =>
    intro l hl hne
    cases l with
    | nil => rfl
    | cons c rest =>
      have hc : ('<' == c) = false := by
        have hcc := hne c (List.mem_cons_self c rest)
        cases hq : ('<' == c)
        · rfl
        · exfalso
          rw [(beq_iff_eq.mp hq).symm] at hcc
          simp at hcc
      have hpre : (['<', '!', '-', '-'].isPrefixOf (c :: rest)) = false := by
        simp [List.isPrefixOf, hc]
      simp only [stripCommentsAux, hpre, Bool.false_eq_true, if_false]
      rw [ih rest (by simp only [List.length_cons] at hl; omega)
        (fun d hd => hne d (List.mem_cons_of_mem c hd))]

theorem stripComments_eq_self {l : List Char}
    (h : ∀ c ∈ l, (c == '<') = false) : stripComments l = l :=
  stripCommentsAux_eq_self l.length l le_rfl h

theorem xss_num_pos_head {m : Int} (hm : 0 < m) :
    (xss (JVal.num m)).data = natToStr m.toNat ∧
    (natToStr m.toNat).head? ≠ some '-' := by
  have hchars : ∀ c ∈ natToStr m.toNat, (c == '<') = false := by
    intro c hc
    have := natToStr_digits m.toNat c hc
    cases hlt : (c == '<')
    · rfl
    · rw [beq_iff_eq.mp hlt] at this
      cases this
  have htruthy : jsTruthy (JVal.num m) = true := by
    unfold jsTruthy
    simp only [Bool.not_eq_true']
    exact beq_eq_false_iff_ne.mpr (by omega)
  have hjs : (jsToString (JVal.num m)).data = natToStr m.toNat := by
    show intToChars m = natToStr m.toNat
    unfold intToChars
    rw [if_neg (by omega)]
  constructor
  · unfold xss
    rw [if_pos htruthy]
    show (neutralize (stripComments (jsToString (JVal.num m)).data)) = _
    rw [hjs, stripComments_eq_self hchars]
    exact neutralize_eq_self hchars
  · cases hns : natToStr m.toNat with
    | nil => exact absurd hns (natToStr_ne_nil m.toNat)
    | cons c r =>
      have hd : c.isDigit = true :=
        natToStr_digits m.toNat c (hns ▸ List.mem_cons_self c r)
      simp only [List.head?_cons, ne_eq, Option.some.injEq]
      intro hcm
      rw [hcm] at hd
      cases hd

theorem parseIntChars_nil : parseIntChars [] = none := rfl

theorem xss_empty_of_isEmpty {v : JVal} (h : isEmpty v = true) :
    xss v = "" := by
  have : jsTruthy v = false := by
    unfold isEmpty at h
    have h2 := (Bool.and_eq_true _ _).mp h
    simpa using h2.2
  unfold xss
  rw [this]
  rfl

theorem xss_num_zero : xss (JVal.num 0) = "" := rfl

theorem filter_eq_self_of_length {α : Type} {p : α → Bool} {L : List α}
    (h : (L.filter p).length = L.length) : L.filter p = L := by
  induction L with
  | nil => rfl
  | cons a l ih =>
    by_cases hp : p a = true
    · rw [List.filter_cons_of_pos hp] at h ⊢
      rw [ih (by simpa using h)]
    · rw [List.filter_cons_of_neg (by simpa using hp)] at h
      have := List.length_filter_le p l
      simp only [List.length_cons] at h
      omega

theorem zip_if_options (b1 b2 b3 b4 : Bool) (c1 c2 c3 c4 : String)
    (v1 v2 v3 v4 : String) :
    ∀ p ∈ (([if b1 then some c1 else none, if b2 then some c2 else none,
        if b3 then some c3 else none,
        if b4 then some c4 else none].filterMap id).zip
      ([if b1 then some v1 else none, if b2 then some v2 else none,
        if b3 then some v3 else none,
        if b4 then some v4 else none].filterMap id)),
      p = (c1, v1) ∨ p = (c2, v2) ∨ p = (c3, v3) ∨ p = (c4, v4) := by
  cases b1 <;> cases b2 <;> cases b3 <;> cases b4 <;> intro p hp <;>
    simp at hp <;> tauto

theorem changed_len_eq (t : TodoInput) :
    (changedColumns t).length =
      ([if !isEmpty t.title then some (xss t.title) else none,
        if !isEmpty t.due then some (xss t.due) else none,
        if !isEmpty t.position then some (xss t.position) else none,
        if !isEmpty t.completed then some (xss t.completed)
          else none].filterMap id).length := by
  unfold changedColumns
  by_cases h1 : isEmpty t.title <;> by_cases h2 : isEmpty t.due <;>
    by_cases h3 : isEmpty t.position <;>
    by_cases h4 : isEmpty t.completed <;>
    simp [h1, h2, h3, h4]

theorem zip_changed (t : TodoInput)
    (hlen : (changedColumns t).length = (changedValues t).length) :
    ∀ p ∈ (changedColumns t).zip (changedValues t),
      p = ("title", xss t.title) ∨ p = ("due", xss t.due) ∨
      p = ("position", xss t.position) ∨
      p = ("completed", xss t.completed) := by
  have hfull : changedValues t =
      [if !isEmpty t.title then some (xss t.title) else none,
        if !isEmpty t.due then some (xss t.due) else none,
        if !isEmpty t.position then some (xss t.position) else none,
        if !isEmpty t.completed then some (xss t.completed)
          else none].filterMap id := by
    unfold changedValues
    apply filter_eq_self_of_length
    have h1 := changed_len_eq t
    unfold changedValues at hlen
    omega
  intro p hp
  rw [hfull] at hp
  unfold changedColumns at hp
  exact zip_if_options (!isEmpty t.title) (!isEmpty t.due)
    (!isEmpty t.position) (!isEmpty t.completed) "title" "due" "position"
    "completed" (xss t.title) (xss t.due) (xss t.position)
    (xss t.completed) p hp

theorem valid_position_of_empty_validation {t : TodoInput}
    (h : (validateTodo t).length = 0) (hp : isEmpty t.position = false) :
    positionOk t.position = true := by
  by_contra hbad
  have hcond : (!isEmpty t.position && !positionOk t.position) = true := by
    simp [hp, Bool.eq_false_iff.mpr hbad]
  unfold validateTodo at h
  rw [hcond] at h
  simp at h

theorem valid_title_of_empty_validation {t : TodoInput}
    (h : (validateTodo t).length = 0) (hp : isEmpty t.title = false) :
    titleOk t.title = true := by
  by_contra hbad
  have hcond : (!isEmpty t.title && !titleOk t.title) = true := by
    simp [hp, Bool.eq_false_iff.mpr hbad]
  unfold validateTodo at h
  rw [hcond] at h
  simp at h

theorem insertTodo_eq (db : List Row) (nid : Int) (now : Nat)
    (s1 s2 s3 s4 : String) :
    insertTodo db nid now (some s1) (some s2) (some s3) (some s4) =
      match castVarchar128 s1, castInt4 s2, castBool s3,
          castTimestamp s4 with
      | .error e, _, _, _ => .error e
      | _, .error e, _, _ => .error e
      | _, _, .error e, _ => .error e
      | _, _, _, .error e => .error e
      | .ok a, .ok pos, .ok cb, .ok d =>
        .ok (db ++ [⟨nid, a, some d, pos, cb, now, now⟩],
          ⟨nid, a, some d, pos, cb, now, now⟩) := rfl

theorem neutralize_ne_nil {l : List Char} (h : l ≠ []) :
    neutralize l ≠ [] := by
  cases l with
  | nil => exact absurd rfl h
  | cons c r =>
    simp only [neutralize]
    split <;> simp

theorem xss_position_parse_nonneg {t : TodoInput} {n : Int}
    (hv : (validateTodo t).length = 0)
    (hparse : castInt4 (xss t.position) = .ok n) : 0 ≤ n := by
  by_cases hpe : isEmpty t.position = true
  · exfalso
    have hx := xss_empty_of_isEmpty hpe
    have hp := castInt4_ok hparse
    rw [hx, show ("" : String).data = [] from rfl, parseIntChars_nil] at hp
    cases hp
  · have hpOk := valid_position_of_empty_validation hv
      (Bool.not_eq_true _ ▸ hpe)
    cases ht : t.position with
    | num m =>
      rw [ht] at hpOk hparse
      have hm : (0 : Int) ≤ m := by
        simpa [positionOk] using hpOk
      by_cases hm0 : m = 0
      · exfalso
        rw [hm0] at hparse
        have hz : castInt4 (xss (JVal.num 0)) = .error .badInt := rfl
        rw [hz] at hparse
        cases hparse
      · obtain ⟨hdata, hhead⟩ := xss_num_pos_head (show 0 < m by omega)
        have hp := castInt4_ok hparse
        rw [hdata] at hp
        exact parseIntChars_nonneg hp hhead
    | undef => rw [ht] at hpOk; simp [positionOk] at hpOk
    | null => rw [ht] at hpOk; simp [positionOk] at hpOk
    | str s => rw [ht] at hpOk; simp [positionOk] at hpOk
    | bool b => rw [ht] at hpOk; simp [positionOk] at hpOk

theorem insert_path_inv {db : List Row} {nid : Int} {now : Nat}
    {t : TodoInput} {db2 : List Row} {rnew : Row}
    (hv : (validateTodo t).length = 0)
    (hins : insertTodo db nid now (some (xss t.title))
      (some (xss t.position)) (some (xss t.completed))
      (some (xss t.due)) = .ok (db2, rnew)) :
    db2 = db ++ [rnew] ∧ rnew.title = xss t.title ∧
    rnew.title.length ≤ 128 ∧ 0 ≤ rnew.position := by
  rw [insertTodo_eq] at hins
  cases h1 : castVarchar128 (xss t.title) with
  | error e => rw [h1] at hins; simp at hins
  | ok a =>
    rw [h1] at hins
    cases h2 : castInt4 (xss t.position) with
    | error e => rw [h2] at hins; simp at hins
    | ok pos =>
      rw [h2] at hins
      cases h3 : castBool (xss t.completed) with
      | error e => rw [h3] at hins; simp at hins
      | ok cb =>
        rw [h3] at hins
        cases h4 : castTimestamp (xss t.due) with
        | error e => rw [h4] at hins; simp at hins
        | ok d =>
          rw [h4] at hins
          simp only [Except.ok.injEq, Prod.mk.injEq] at hins
          obtain ⟨hdb2, hr⟩ := hins
          obtain ⟨ha, halen⟩ := castVarchar128_ok h1
          refine ⟨by rw [← hdb2, ← hr], ?_, ?_, ?_⟩
          · rw [← hr]; exact ha
          · rw [← hr]
            show a.length ≤ 128
            rw [ha]; exact halen
          · rw [← hr]
            show 0 ≤ pos
            exact xss_position_parse_nonneg hv h2

theorem castCols_good {t : TodoInput} {us : List ColUpd}
    (hv : (validateTodo t).length = 0)
    (hlen : (changedColumns t).length = (changedValues t).length)
    (hcast : castCols ((changedColumns t).zip (changedValues t)) = .ok us) :
    ∀ u ∈ us, (∀ s, u = ColUpd.setTitle s → s.length ≤ 128) ∧
      (∀ n, u = ColUpd.setPosition n → 0 ≤ n) := by
  intro u hu
  obtain ⟨p, hp, hpc⟩ := castCols_mem hcast _ hu
  constructor
  · intro s hus
    rw [hus] at hpc
    obtain ⟨_, hc2⟩ := castCol_setTitle hpc
    obtain ⟨hsv, hvl⟩ := castVarchar128_ok hc2
    rw [hsv]; exact hvl
  · intro n hun
    rw [hun] at hpc
    obtain ⟨hc1, hc2⟩ := castCol_setPosition hpc
    rcases zip_changed t hlen p hp with h1 | h1 | h1 | h1
    · rw [h1] at hc1; simp at hc1
    · rw [h1] at hc1; simp at hc1
    · rw [h1] at hc2
      exact xss_position_parse_nonneg hv hc2
    · rw [h1] at hc1; simp at hc1

theorem applyUpds_inv {r : Row} {us : List ColUpd}
    (hr : r.title.length ≤ 128 ∧ 0 ≤ r.position)
    (hgood : ∀ u ∈ us, (∀ s, u = ColUpd.setTitle s → s.length ≤ 128) ∧
      (∀ n, u = ColUpd.setPosition n → 0 ≤ n)) :
    (applyUpds r us).title.length ≤ 128 ∧
    0 ≤ (applyUpds r us).position := by
  induction us generalizing r with
  | nil => exact hr
  | cons u rest ih =>
    have hstep : applyUpds r (u :: rest) = applyUpds (applyUpd r u) rest :=
      rfl
    rw [hstep]
    have hgood' : ∀ u' ∈ rest,
        (∀ s, u' = ColUpd.setTitle s → s.length ≤ 128) ∧
        (∀ n, u' = ColUpd.setPosition n → 0 ≤ n) :=
      fun u' hu' => hgood u' (List.mem_cons_of_mem u hu')
    apply ih _ hgood'
    have hu := hgood u (List.mem_cons_self u rest)
    cases u with
    | setTitle s => exact ⟨hu.1 s rfl, hr.2⟩
    | setDue s => exact hr
    | setPosition n => exact ⟨hr.1, hu.2 n rfl⟩
    | setCompleted b => exact hr

/-! ## Claim theorems -/

/-- C1: for every update request whose id matches no existing row,
`update` returns the not-found result (`notFound` true, empty
validation list), whatever the supplied fields are: the existence
check runs before field validation. -/
theorem update_missing_id_notFound (db : List Row) (id : Int) (t : TodoInput)
    (h : ∀ r ∈ db, r.id ≠ id) :
    update db id t = (db, .ok ⟨false, true, [], none⟩) := by
  unfold update
  rw [filter_id_eq_nil h]
  rfl

/-- Witness for C1: updating id 2 in a one-row table holding only
id 1, with a payload whose every field is invalid, yields the
not-found result with an empty validation list. -/
theorem update_missing_id_notFound_spot :
    update [⟨1, "A", some "2021-01-01", 1, false, 0, 0⟩] 2
      ⟨.str "", .num (-1), .str "x", .str "nope"⟩ =
    ([⟨1, "A", some "2021-01-01", 1, false, 0, 0⟩],
     .ok ⟨false, true, [], none⟩) :=
  update_missing_id_notFound _ 2 _ (by decide)

/-- C2: whatever `update` does, a field not supplied in the request
keeps its previous value in the row that stays persisted (and the
system-managed `id`, `created`, `updated` are never written by the
`SET` clause); rows with a different id are untouched. -/
theorem update_partial_frame (db : List Row) (id : Int) (t : TodoInput)
    (r' : Row) (h : r' ∈ (update db id t).1) :
    ∃ r ∈ db, r'.id = r.id ∧ r'.created = r.created ∧
      r'.updated = r.updated ∧
      (isEmpty t.title = true → r'.title = r.title) ∧
      (isEmpty t.due = true → r'.due = r.due) ∧
      (isEmpty t.position = true → r'.position = r.position) ∧
      (isEmpty t.completed = true → r'.completed = r.completed) ∧
      (r.id ≠ id → r' = r) := by
  by_cases hf : (db.filter (fun r => r.id == id)).isEmpty
  · have hdb : (update db id t).1 = db := by unfold update; simp [hf]
    rw [hdb] at h
    exact ⟨r', h, rfl, rfl, rfl, fun _ => rfl, fun _ => rfl, fun _ => rfl,
      fun _ => rfl, fun _ => rfl⟩
  · by_cases hv : (validateTodo t).length > 0
    · have hdb : (update db id t).1 = db := by unfold update; simp [hf, hv]
      rw [hdb] at h
      exact ⟨r', h, rfl, rfl, rfl, fun _ => rfl, fun _ => rfl, fun _ => rfl,
        fun _ => rfl, fun _ => rfl⟩
    · cases he : execUpdate db id (changedColumns t) (changedValues t) with
      | error e =>
        have hdb : (update db id t).1 = db := by
          unfold update; simp [hf, hv, he]
        rw [hdb] at h
        exact ⟨r', h, rfl, rfl, rfl, fun _ => rfl, fun _ => rfl,
          fun _ => rfl, fun _ => rfl, fun _ => rfl⟩
      | ok pr =>
        obtain ⟨db', item⟩ := pr
        have hdb : (update db id t).1 = db' := by
          unfold update; simp [hf, hv, he]
        unfold execUpdate at he
        split at he
        · cases he
        · split at he
          · cases he
          · cases hcast : castCols
                ((changedColumns t).zip (changedValues t)) with
            | error e => rw [hcast] at he; cases he
            | ok us =>
              rw [hcast] at he
              simp only [Except.ok.injEq, Prod.mk.injEq] at he
              rw [hdb, ← he.1] at h
              obtain ⟨r, hr, hfr⟩ := List.mem_map.mp h
              by_cases hid : (r.id == id) = true
              · have hr' : r' = applyUpds r us := by rw [← hfr]; simp [hid]
                refine ⟨r, hr, ?_, ?_, ?_, ?_, ?_, ?_, ?_, ?_⟩
                · rw [hr']; exact applyUpds_id r us
                · rw [hr']; exact applyUpds_created r us
                · rw [hr']; exact applyUpds_updated r us
                · intro hemp
                  rw [hr']
                  exact applyUpds_title r us (no_setTitle hemp hcast)
                · intro hemp
                  rw [hr']
                  exact applyUpds_due r us (no_setDue hemp hcast)
                · intro hemp
                  rw [hr']
                  exact applyUpds_position r us (no_setPosition hemp hcast)
                · intro hemp
                  rw [hr']
                  exact applyUpds_completed r us (no_setCompleted hemp hcast)
                · intro hne
                  exact absurd (by simpa using hid) hne
              · have hr' : r' = r := by rw [← hfr]; simp [hid]
                exact ⟨r, hr, by rw [hr'], by rw [hr'], by rw [hr'],
                  fun _ => by rw [hr'], fun _ => by rw [hr'],
                  fun _ => by rw [hr'], fun _ => by rw [hr'],
                  fun _ => hr'⟩

/-- Witness for C2: a partial update that supplies only the title
leaves due, position, completed and the timestamps of the stored row
unchanged. -/
theorem update_partial_frame_spot :
    ∃ r ∈ [(⟨1, "Old", some "2021-01-01", 1, true, 3, 7⟩ : Row)],
      (⟨1, "New", some "2021-01-01", 1, true, 3, 7⟩ : Row).id = r.id ∧
      (⟨1, "New", some "2021-01-01", 1, true, 3, 7⟩ : Row).created =
        r.created ∧
      (⟨1, "New", some "2021-01-01", 1, true, 3, 7⟩ : Row).updated =
        r.updated ∧
      (isEmpty (TodoInput.mk (.str "New") .undef .undef .undef).title =
          true →
        (⟨1, "New", some "2021-01-01", 1, true, 3, 7⟩ : Row).title =
          r.title) ∧
      (isEmpty (TodoInput.mk (.str "New") .undef .undef .undef).due =
          true →
        (⟨1, "New", some "2021-01-01", 1, true, 3, 7⟩ : Row).due =
          r.due) ∧
      (isEmpty (TodoInput.mk (.str "New") .undef .undef .undef).position =
          true →
        (⟨1, "New", some "2021-01-01", 1, true, 3, 7⟩ : Row).position =
          r.position) ∧
      (isEmpty (TodoInput.mk (.str "New") .undef .undef .undef).completed =
          true →
        (⟨1, "New", some "2021-01-01", 1, true, 3, 7⟩ : Row).completed =
          r.completed) ∧
      (r.id ≠ 1 → (⟨1, "New", some "2021-01-01", 1, true, 3, 7⟩ : Row) = r) :=
  update_partial_frame [⟨1, "Old", some "2021-01-01", 1, true, 3, 7⟩] 1
    ⟨.str "New", .undef, .undef, .undef⟩
    ⟨1, "New", some "2021-01-01", 1, true, 3, 7⟩ (by decide)

/-- Counterexample to C3 as stated: a successful update (the title of
row 1 changes from Old to New) leaves the persisted `updated`
timestamp at its old value 7 — no branch of `update` writes the
`updated` column — and the returned item carries only the five
columns of the RETURNING clause (`ItemView`), not the system-managed
`created`/`updated`. -/
theorem update_keeps_stale_updated :
    update [⟨1, "Old", some "2021-01-01", 1, true, 3, 7⟩] 1
      ⟨.str "New", .undef, .undef, .undef⟩ =
    ([⟨1, "New", some "2021-01-01", 1, true, 3, 7⟩],
     .ok ⟨true, false, [],
       some ⟨1, "New", some "2021-01-01", 1, true⟩⟩) ∧
    (update [⟨1, "Old", some "2021-01-01", 1, true, 3, 7⟩] 1
      ⟨.str "New", .undef, .undef, .undef⟩).1.map Row.updated = [7] :=
  ⟨rfl, rfl⟩

/-- C3 amended: every successful update returns an item holding the
updated row's `id`, `title`, `due`, `position` and `completed` (the
RETURNING clause omits `created` and `updated`), and leaves every
row's `created` and `updated` timestamps exactly as they were. -/
theorem update_success_view_and_timestamps (db : List Row) (id : Int)
    (t : TodoInput) (db' : List Row) (res : UpdateResult)
    (h : update db id t = (db', .ok res)) (hs : res.success = true) :
    db'.map Row.updated = db.map Row.updated ∧
    db'.map Row.created = db.map Row.created ∧
    ∃ r' ∈ db', r'.id = id ∧ res.item = some (toView r') := by
  by_cases hf : (db.filter (fun r => r.id == id)).isEmpty
  · have : update db id t = (db, .ok ⟨false, true, [], none⟩) := by
      unfold update; simp [hf]
    rw [this] at h
    simp only [Prod.mk.injEq, Except.ok.injEq] at h
    rw [← h.2] at hs
    cases hs
  · by_cases hv : (validateTodo t).length > 0
    · have : update db id t = (db, .ok ⟨false, false, validateTodo t, none⟩) := by
        unfold update; simp [hf, hv]
      rw [this] at h
      simp only [Prod.mk.injEq, Except.ok.injEq] at h
      rw [← h.2] at hs
      cases hs
    · cases he : execUpdate db id (changedColumns t) (changedValues t) with
      | error e =>
        have : update db id t = (db, .error e) := by
          unfold update; simp [hf, hv, he]
        rw [this] at h
        simp only [Prod.mk.injEq] at h
        cases h.2
      | ok pr =>
        obtain ⟨db2, item⟩ := pr
        have hupd : update db id t = (db2, .ok ⟨true, false, [], item⟩) := by
          unfold update; simp [hf, hv, he]
        rw [hupd] at h
        simp only [Prod.mk.injEq, Except.ok.injEq] at h
        obtain ⟨hdb2, hres⟩ := h
        unfold execUpdate at he
        split at he
        · cases he
        · split at he
          · cases he
          · cases hcast : castCols
                ((changedColumns t).zip (changedValues t)) with
            | error e => rw [hcast] at he; cases he
            | ok us =>
              rw [hcast] at he
              simp only [Except.ok.injEq, Prod.mk.injEq] at he
              obtain ⟨hmap, hitem⟩ := he
              cases hfl : db.filter (fun r => r.id == id) with
              | nil => rw [hfl] at hf; exact absurd rfl hf
              | cons r0 tl =>
                have hr0db : r0 ∈ db := by
                  have : r0 ∈ db.filter (fun r => r.id == id) := by
                    rw [hfl]; exact List.mem_cons_self _ _
                  exact (List.mem_filter.mp this).1
                have hr0id : (r0.id == id) = true := by
                  have : r0 ∈ db.filter (fun r => r.id == id) := by
                    rw [hfl]; exact List.mem_cons_self _ _
                  exact (List.mem_filter.mp this).2
                refine ⟨?_, ?_, applyUpds r0 us, ?_, ?_, ?_⟩
                · rw [← hdb2, ← hmap, List.map_map]
                  exact List.map_congr_left (fun r _ => by
                    by_cases hid : r.id = id <;>
                      simp [hid, applyUpds_updated])
                · rw [← hdb2, ← hmap, List.map_map]
                  exact List.map_congr_left (fun r _ => by
                    by_cases hid : r.id = id <;>
                      simp [hid, applyUpds_created])
                · rw [← hdb2, ← hmap]
                  have := List.mem_map_of_mem
                    (fun r => if r.id == id then applyUpds r us else r) hr0db
                  simpa [hr0id] using this
                · rw [applyUpds_id]
                  exact beq_iff_eq.mp hr0id
                · rw [← hres, ← hitem, hfl]
                  rfl

/-- Witness for C3 amended: the concrete successful update of row 1
returns the five-column view and preserves `created = 3`,
`updated = 7`. -/
theorem update_success_view_and_timestamps_spot :
    [(⟨1, "New", some "2021-01-01", 1, true, 3, 7⟩ : Row)].map Row.updated =
      [(⟨1, "Old", some "2021-01-01", 1, true, 3, 7⟩ : Row)].map
        Row.updated ∧
    [(⟨1, "New", some "2021-01-01", 1, true, 3, 7⟩ : Row)].map Row.created =
      [(⟨1, "Old", some "2021-01-01", 1, true, 3, 7⟩ : Row)].map
        Row.created ∧
    ∃ r' ∈ [(⟨1, "New", some "2021-01-01", 1, true, 3, 7⟩ : Row)],
      r'.id = 1 ∧
      (UpdateResult.mk true false []
        (some ⟨1, "New", some "2021-01-01", 1, true⟩)).item =
        some (toView r') :=
  update_success_view_and_timestamps
    [⟨1, "Old", some "2021-01-01", 1, true, 3, 7⟩] 1
    ⟨.str "New", .undef, .undef, .undef⟩
    [⟨1, "New", some "2021-01-01", 1, true, 3, 7⟩]
    ⟨true, false, [], some ⟨1, "New", some "2021-01-01", 1, true⟩⟩
    rfl rfl

/-- C4 (the code at the failing input): a legitimately supplied
`position` of `0` on an existing row is not applied: `xss(0)` is the
empty string, `.filter(Boolean)` drops it from `changedValues` while
`changedColumns` keeps `position`, and the resulting one-column,
zero-parameter UPDATE is rejected by the driver, so the request
errors instead of writing `position = 0`. -/
theorem update_position_zero_param_mismatch :
    update [⟨1, "A", some "2021-01-01", 1, false, 0, 0⟩] 1
      ⟨.undef, .num 0, .undef, .undef⟩ =
    ([⟨1, "A", some "2021-01-01", 1, false, 0, 0⟩],
     .error .paramMismatch) := by
  rfl

/-- C6: `readAll` with a `completed` filter of `"true"` (or
`"false"`) returns exactly the rows whose completed flag matches (a
permutation of the filtered table), ordered by `position`; the
descending order is selected exactly when the order argument
lowercases to `desc`, so every other order argument (including an
absent one) yields ascending order. -/
theorem readAll_filter_and_order (db : List Row) (order : Option String)
    (c : String) (hc : c = "true" ∨ c = "false") :
    (∀ r ∈ readAll db order (some c), r.completed = (c == "true")) ∧
    (readAll db order (some c)).Perm
      (db.filter (fun r => r.completed == (c == "true"))) ∧
    (((order.getD "ASC").toLower == "desc") = false →
      (readAll db order (some c)).Pairwise
        (fun a b => a.position ≤ b.position)) ∧
    (((order.getD "ASC").toLower == "desc") = true →
      (readAll db order (some c)).Pairwise
        (fun a b => b.position ≤ a.position)) := by
  have hcc : (c == "false" || c == "true") = true := by
    rcases hc with h | h <;> simp [h]
  have hra : readAll db order (some c) =
      isort (if (order.getD "ASC").toLower == "desc" then rowLeDesc
        else rowLeAsc)
        (db.filter (fun r => r.completed == (c == "true"))) := by
    unfold readAll
    simp only [hcc, if_true]
  refine ⟨?_, ?_, ?_, ?_⟩
  · intro r hr
    rw [hra] at hr
    have := (isort_perm _ _).mem_iff.mp hr
    have := (List.mem_filter.mp this).2
    exact beq_iff_eq.mp this
  · rw [hra]
    exact isort_perm _ _
  · intro hd
    rw [hra, hd, if_neg (by simp)]
    have := isort_pairwise rowLeAsc_total rowLeAsc_trans
      (db.filter (fun r => r.completed == (c == "true")))
    exact this.imp (fun h => by
      unfold rowLeAsc at h
      exact of_decide_eq_true h)
  · intro hd
    rw [hra, hd, if_pos rfl]
    have := isort_pairwise rowLeDesc_total rowLeDesc_trans
      (db.filter (fun r => r.completed == (c == "true")))
    exact this.imp (fun h => by
      unfold rowLeDesc at h
      exact of_decide_eq_true h)

/-- Witness for C6: three rows, filter `completed = "true"`, order
`"DESC"` (case-insensitively `desc`). -/
theorem readAll_filter_and_order_spot :
    (∀ r ∈ readAll [(⟨1, "a", none, 5, true, 0, 0⟩ : Row),
        ⟨2, "b", none, 2, false, 0, 0⟩, ⟨3, "c", none, 9, true, 0, 0⟩]
        (some "DESC") (some "true"),
      r.completed = ("true" == "true")) ∧
    (readAll [(⟨1, "a", none, 5, true, 0, 0⟩ : Row),
        ⟨2, "b", none, 2, false, 0, 0⟩, ⟨3, "c", none, 9, true, 0, 0⟩]
        (some "DESC") (some "true")).Perm
      ([(⟨1, "a", none, 5, true, 0, 0⟩ : Row),
        ⟨2, "b", none, 2, false, 0, 0⟩,
        ⟨3, "c", none, 9, true, 0, 0⟩].filter
          (fun r => r.completed == ("true" == "true"))) ∧
    ((((some "DESC" : Option String).getD "ASC").toLower == "desc") =
        false →
      (readAll [(⟨1, "a", none, 5, true, 0, 0⟩ : Row),
          ⟨2, "b", none, 2, false, 0, 0⟩, ⟨3, "c", none, 9, true, 0, 0⟩]
          (some "DESC") (some "true")).Pairwise
        (fun a b => a.position ≤ b.position)) ∧
    ((((some "DESC" : Option String).getD "ASC").toLower == "desc") =
        true →
      (readAll [(⟨1, "a", none, 5, true, 0, 0⟩ : Row),
          ⟨2, "b", none, 2, false, 0, 0⟩, ⟨3, "c", none, 9, true, 0, 0⟩]
          (some "DESC") (some "true")).Pairwise
        (fun a b => b.position ≤ a.position)) :=
  readAll_filter_and_order
    [⟨1, "a", none, 5, true, 0, 0⟩, ⟨2, "b", none, 2, false, 0, 0⟩,
      ⟨3, "c", none, 9, true, 0, 0⟩]
    (some "DESC") "true" (Or.inl rfl)

/-- C5: for every title that is a string of length 0 or above 128,
`create` returns `{success:false, validation ∋ title error,
item:null}` and leaves the table untouched, and `update` on an
existing id returns the same title validation error. -/
theorem bad_title_rejected (db : List Row) (nid : Int) (now : Nat)
    (id : Int) (t : TodoInput) (s : String) (ht : t.title = .str s)
    (hs : s.length = 0 ∨ 128 < s.length)
    (hex : ∃ r ∈ db, r.id = id) :
    (create db nid now t).1 = db ∧
    (∃ v : CreateResult, (create db nid now t).2 = .ok v ∧
      v.success = false ∧ v.item = none ∧
      v.validation.any (fun e => e.field == "title") = true) ∧
    (update db id t).1 = db ∧
    (∃ u : UpdateResult, (update db id t).2 = .ok u ∧
      u.success = false ∧ u.notFound = false ∧
      u.validation.any (fun e => e.field == "title") = true) := by
  have hne : isEmpty t.title = false := by rw [ht]; rfl
  have htb : titleOk t.title = false := by
    rw [ht]
    unfold titleOk isLength1to128
    rcases hs with h0 | h0 <;> simp [h0]
  have hlen : 0 < (validateTodo t).length := by
    unfold validateTodo
    rw [hne, htb]
    simp
  have hany : (validateTodo t).any (fun e => e.field == "title") = true := by
    unfold validateTodo
    rw [hne, htb]
    simp
  obtain ⟨r, hr, hrid⟩ := hex
  have hmem : r ∈ db.filter (fun x => x.id == id) :=
    List.mem_filter.mpr ⟨hr, by simp [hrid]⟩
  have hfe : (db.filter (fun x => x.id == id)).isEmpty = false := by
    cases hfl : db.filter (fun x => x.id == id) with
    | nil => rw [hfl] at hmem; cases hmem
    | cons a l => rfl
  have hcr : create db nid now t = (db, .ok ⟨false, validateTodo t, none⟩) := by
    unfold create
    simp [gt_iff_lt, hlen]
  have hup : update db id t =
      (db, .ok ⟨false, false, validateTodo t, none⟩) := by
    unfold update
    simp [hfe, gt_iff_lt, hlen]
  exact ⟨by rw [hcr],
    ⟨⟨false, validateTodo t, none⟩, by rw [hcr], rfl, rfl, hany⟩,
    by rw [hup],
    ⟨⟨false, false, validateTodo t, none⟩, by rw [hup], rfl, rfl, hany⟩⟩

/-- Witness for C5: the empty title on a one-row table. -/
theorem bad_title_rejected_spot :
    (create [⟨1, "Old", some "2021-01-01", 1, true, 3, 7⟩] 2 9
      ⟨.str "", .undef, .undef, .undef⟩).1 =
      [⟨1, "Old", some "2021-01-01", 1, true, 3, 7⟩] ∧
    (∃ v : CreateResult,
      (create [⟨1, "Old", some "2021-01-01", 1, true, 3, 7⟩] 2 9
        ⟨.str "", .undef, .undef, .undef⟩).2 = .ok v ∧
      v.success = false ∧ v.item = none ∧
      v.validation.any (fun e => e.field == "title") = true) ∧
    (update [⟨1, "Old", some "2021-01-01", 1, true, 3, 7⟩] 1
      ⟨.str "", .undef, .undef, .undef⟩).1 =
      [⟨1, "Old", some "2021-01-01", 1, true, 3, 7⟩] ∧
    (∃ u : UpdateResult,
      (update [⟨1, "Old", some "2021-01-01", 1, true, 3, 7⟩] 1
        ⟨.str "", .undef, .undef, .undef⟩).2 = .ok u ∧
      u.success = false ∧ u.notFound = false ∧
      u.validation.any (fun e => e.field == "title") = true) :=
  bad_title_rejected _ 2 9 1 _ "" rfl (Or.inl rfl)
    ⟨⟨1, "Old", some "2021-01-01", 1, true, 3, 7⟩, by decide, rfl⟩

/-- C8: every successful create stores exactly the xss-filtered
fields: the persisted row's `title` is `xss(title)` and its `due` is
`xss(due)` (the string-valued fields pass through the filter before
the INSERT), and a stored title never contains an un-neutralized
`<script` or `</script` tag. -/
theorem create_sanitizes (db : List Row) (nid : Int) (now : Nat)
    (t : TodoInput) (db' : List Row) (res : CreateResult)
    (h : create db nid now t = (db', .ok res)) (hs : res.success = true) :
    ∃ r : Row, res.item = some r ∧ db' = db ++ [r] ∧
      r.title = xss t.title ∧ r.due = some (xss t.due) ∧
      containsScriptTag r.title.data = false := by
  by_cases hv : (validateTodo t).length > 0
  · have hcr : create db nid now t = (db, .ok ⟨false, validateTodo t, none⟩) := by
      unfold create; simp [hv]
    rw [hcr] at h
    simp only [Prod.mk.injEq, Except.ok.injEq] at h
    rw [← h.2] at hs
    cases hs
  · cases hins : insertTodo db nid now (some (xss t.title))
        (some (xss t.position)) (some (xss t.completed))
        (some (xss t.due)) with
    | error e =>
      have hcr : create db nid now t = (db, .error e) := by
        unfold create; simp [hv, hins]
      rw [hcr] at h
      simp only [Prod.mk.injEq] at h
      cases h.2
    | ok pr =>
      obtain ⟨db2, r⟩ := pr
      have hcr : create db nid now t = (db2, .ok ⟨true, [], some r⟩) := by
        unfold create; simp [hv, hins]
      rw [hcr] at h
      simp only [Prod.mk.injEq, Except.ok.injEq] at h
      obtain ⟨hdb, hres⟩ := h
      rw [insertTodo_eq] at hins
      cases h1 : castVarchar128 (xss t.title) with
      | error e => rw [h1] at hins; simp at hins
      | ok a =>
        rw [h1] at hins
        cases h2 : castInt4 (xss t.position) with
        | error e => rw [h2] at hins; simp at hins
        | ok pos =>
          rw [h2] at hins
          cases h3 : castBool (xss t.completed) with
          | error e => rw [h3] at hins; simp at hins
          | ok cb =>
            rw [h3] at hins
            cases h4 : castTimestamp (xss t.due) with
            | error e => rw [h4] at hins; simp at hins
            | ok d =>
              rw [h4] at hins
              simp only [Except.ok.injEq, Prod.mk.injEq] at hins
              obtain ⟨hdb2, hr⟩ := hins
              refine ⟨r, by rw [← hres], by rw [← hdb, ← hdb2, ← hr], ?_, ?_, ?_⟩
              · rw [← hr]
                exact (castVarchar128_ok h1).1
              · rw [← hr]
                simp only []
                rw [(castTimestamp_ok h4).1]
              · rw [← hr]
                have : a = xss t.title := (castVarchar128_ok h1).1
                rw [this]
                exact containsScriptTag_xss t.title

/-- Witness for C8: creating a todo whose title carries a script tag
stores the escaped title `Hi &lt;script>x&lt;/script>`. -/
theorem create_sanitizes_spot :
    ∃ r : Row,
      (CreateResult.mk true []
        (some ⟨1, "Hi &lt;script>x&lt;/script>", some "2021-02-03", 2,
          true, 5, 5⟩)).item = some r ∧
      [(⟨1, "Hi &lt;script>x&lt;/script>", some "2021-02-03", 2, true,
        5, 5⟩ : Row)] = [] ++ [r] ∧
      r.title = xss (JVal.str "Hi <script>x</script>") ∧
      r.due = some (xss (JVal.str "2021-02-03")) ∧
      containsScriptTag r.title.data = false :=
  create_sanitizes [] 1 5
    ⟨.str "Hi <script>x</script>", .num 2, .bool true, .str "2021-02-03"⟩
    [⟨1, "Hi &lt;script>x&lt;/script>", some "2021-02-03", 2, true, 5, 5⟩]
    ⟨true, [],
      some ⟨1, "Hi &lt;script>x&lt;/script>", some "2021-02-03", 2, true,
        5, 5⟩⟩
    rfl rfl

/-- C7: `del` returns `true` exactly when one row was removed:
deleting an existing id removes its row and succeeds (HTTP 204)
exactly once, and a second delete of the same id removes nothing and
returns not-found (HTTP 404). -/
theorem del_succeeds_exactly_once (db : List Row) (id : Int)
    (hu : (db.map Row.id).Nodup) (hex : ∃ r ∈ db, r.id = id) :
    (del db id).2 = true ∧
    (del (del db id).1 id).2 = false ∧
    (del (del db id).1 id).1 = (del db id).1 ∧
    deleteRoute db id = ((del db id).1, 204) ∧
    deleteRoute (del db id).1 id = ((del db id).1, 404) := by
  have h1 : db.countP (fun r => r.id == id) = 1 := countP_id_eq_one hu hex
  have h0 : (db.filter (fun r => !(r.id == id))).countP
      (fun r => r.id == id) = 0 := by
    rw [List.countP_eq_zero]
    intro x hx
    have := (List.mem_filter.mp hx).2
    simpa using this
  have hff : (db.filter (fun r => !(r.id == id))).filter
      (fun r => !(r.id == id)) = db.filter (fun r => !(r.id == id)) := by
    rw [List.filter_filter]
    exact List.filter_congr (fun x _ => Bool.and_self _)
  refine ⟨by simp [del, h1], by simp [del, h0], by simp [del, hff], ?_, ?_⟩
  · simp [deleteRoute, del, h1]
  · simp [deleteRoute, del, h1, h0, hff]

/-- Witness for C7: a two-row table with distinct ids. -/
theorem del_succeeds_exactly_once_spot :
    (del [⟨1, "a", none, 5, true, 0, 0⟩, ⟨2, "b", none, 2, false, 0, 0⟩]
      1).2 = true ∧
    (del (del [⟨1, "a", none, 5, true, 0, 0⟩,
      ⟨2, "b", none, 2, false, 0, 0⟩] 1).1 1).2 = false ∧
    (del (del [⟨1, "a", none, 5, true, 0, 0⟩,
      ⟨2, "b", none, 2, false, 0, 0⟩] 1).1 1).1 =
      (del [⟨1, "a", none, 5, true, 0, 0⟩,
        ⟨2, "b", none, 2, false, 0, 0⟩] 1).1 ∧
    deleteRoute [⟨1, "a", none, 5, true, 0, 0⟩,
      ⟨2, "b", none, 2, false, 0, 0⟩] 1 =
      ((del [⟨1, "a", none, 5, true, 0, 0⟩,
        ⟨2, "b", none, 2, false, 0, 0⟩] 1).1, 204) ∧
    deleteRoute (del [⟨1, "a", none, 5, true, 0, 0⟩,
      ⟨2, "b", none, 2, false, 0, 0⟩] 1).1 1 =
      ((del [⟨1, "a", none, 5, true, 0, 0⟩,
        ⟨2, "b", none, 2, false, 0, 0⟩] 1).1, 404) :=
  del_succeeds_exactly_once _ 1 (by decide)
    ⟨⟨1, "a", none, 5, true, 0, 0⟩, by decide, rfl⟩

/-- Counterexample to C9 as stated: `create` persists a row whose
title is the empty string (length 0), violating the invariant that
every persisted title has length in [1,128], in two ways.  With an
absent title, validation never sees the missing field and `xss`
binds `""`.  With the supplied, validation-passing title `<!--x-->`
(a string of length 8), the sanitizer's default comment stripping
reduces the title to `""` before the INSERT.  In both cases the
schema's `position` default plays no role (an explicit value is
always bound). -/
theorem create_persists_empty_title :
    create [] 1 5 ⟨.undef, .num 2, .bool true, .str "2021-01-01"⟩ =
      ([⟨1, "", some "2021-01-01", 2, true, 5, 5⟩],
       .ok ⟨true, [],
         some ⟨1, "", some "2021-01-01", 2, true, 5, 5⟩⟩) ∧
    validateTodo ⟨.str "<!--x-->", .num 2, .bool true,
      .str "2021-01-01"⟩ = [] ∧
    create [] 1 5 ⟨.str "<!--x-->", .num 2, .bool true,
      .str "2021-01-01"⟩ =
      ([⟨1, "", some "2021-01-01", 2, true, 5, 5⟩],
       .ok ⟨true, [],
         some ⟨1, "", some "2021-01-01", 2, true, 5, 5⟩⟩) ∧
    (⟨1, "", some "2021-01-01", 2, true, 5, 5⟩ : Row).title.length = 0 :=
  ⟨rfl, rfl, rfl, rfl⟩

/-- C9 amended: every row persisted through `create` or `update`
satisfies `title.length ≤ 128` and `position ≥ 0`; the lower bound
of 1 on the title length does not hold — `create` can persist an
empty title, both when the title is absent and when a supplied,
validation-passing title is sanitized to the empty string (such as
the HTML comment `<!--x-->`). -/
theorem persisted_rows_invariant (db : List Row) (nid : Int) (now : Nat)
    (id : Int) (t : TodoInput)
    (hdb : ∀ r ∈ db, r.title.length ≤ 128 ∧ 0 ≤ r.position) :
    (∀ r ∈ (create db nid now t).1,
      r.title.length ≤ 128 ∧ 0 ≤ r.position) ∧
    (∀ r ∈ (update db id t).1,
      r.title.length ≤ 128 ∧ 0 ≤ r.position) := by
  by_cases hv : (validateTodo t).length > 0
  · have hcr : (create db nid now t).1 = db := by
      unfold create; simp [hv]
    have hup : (update db id t).1 = db := by
      unfold update
      by_cases hf : (db.filter (fun r => r.id == id)).isEmpty
      · simp [hf]
      · simp [hf, hv]
    rw [hcr, hup]
    exact ⟨hdb, hdb⟩
  · have hv0 : (validateTodo t).length = 0 := by omega
    refine ⟨?_, ?_⟩
    · intro r hr
      cases hins : insertTodo db nid now (some (xss t.title))
          (some (xss t.position)) (some (xss t.completed))
          (some (xss t.due)) with
      | error e =>
        have hcr : (create db nid now t).1 = db := by
          unfold create; simp [hv, hins]
        rw [hcr] at hr
        exact hdb r hr
      | ok pr =>
        obtain ⟨db2, rnew⟩ := pr
        have hcr : (create db nid now t).1 = db2 := by
          unfold create; simp [hv, hins]
        rw [hcr] at hr
        obtain ⟨hdb2, _, hlen, hpos⟩ := insert_path_inv hv0 hins
        rw [hdb2] at hr
        rcases List.mem_append.mp hr with h1 | h1
        · exact hdb r h1
        · rcases List.mem_singleton.mp h1 with rfl
          exact ⟨hlen, hpos⟩
    · intro r hr
      by_cases hf : (db.filter (fun r => r.id == id)).isEmpty
      · have hup : (update db id t).1 = db := by unfold update; simp [hf]
        rw [hup] at hr
        exact hdb r hr
      · cases he : execUpdate db id (changedColumns t)
            (changedValues t) with
        | error e =>
          have hup : (update db id t).1 = db := by
            unfold update; simp [hf, hv, he]
          rw [hup] at hr
          exact hdb r hr
        | ok pr =>
          obtain ⟨db2, item⟩ := pr
          have hup : (update db id t).1 = db2 := by
            unfold update; simp [hf, hv, he]
          rw [hup] at hr
          unfold execUpdate at he
          split at he
          · cases he
          · split at he
            · cases he
            · rename_i hlen2
              have hlen' : (changedColumns t).length =
                  (changedValues t).length := not_ne_iff.mp hlen2
              cases hcast : castCols
                  ((changedColumns t).zip (changedValues t)) with
              | error e2 => rw [hcast] at he; cases he
              | ok us =>
                rw [hcast] at he
                simp only [Except.ok.injEq, Prod.mk.injEq] at he
                rw [← he.1] at hr
                obtain ⟨r0, hr0, hfr⟩ := List.mem_map.mp hr
                by_cases hid : (r0.id == id) = true
                · simp only [hid, if_true] at hfr
                  rw [← hfr]
                  exact applyUpds_inv (hdb r0 hr0)
                    (castCols_good hv0 hlen' hcast)
                · simp only [hid, Bool.false_eq_true, if_false] at hfr
                  rw [← hfr]
                  exact hdb r0 hr0

/-- Witness for C9 amended: a create and an update against an empty,
trivially invariant-respecting table. -/
theorem persisted_rows_invariant_spot :
    (∀ r ∈ (create [] 1 5
        ⟨.str "Hi", .num 2, .bool true, .str "2021-01-01"⟩).1,
      r.title.length ≤ 128 ∧ 0 ≤ r.position) ∧
    (∀ r ∈ (update [] 1
        ⟨.str "Hi", .num 2, .bool true, .str "2021-01-01"⟩).1,
      r.title.length ≤ 128 ∧ 0 ≤ r.position) :=
  persisted_rows_invariant [] 1 5 1
    ⟨.str "Hi", .num 2, .bool true, .str "2021-01-01"⟩ (by simp)

/-- Counterexample to C10's closing clause: a create with no title
and valid remaining fields is rejected by nothing at all — the empty
validation list lets it through, the absent title is sanitized to the
empty string `""` (not SQL NULL), the NOT NULL constraint is
satisfied, and the insert succeeds storing an empty title. -/
theorem create_missing_title_unrejected :
    validateTodo ⟨.undef, .num 3, .bool true, .str "2022-05-05"⟩ = [] ∧
    create [] 7 9 ⟨.undef, .num 3, .bool true, .str "2022-05-05"⟩ =
      ([⟨7, "", some "2022-05-05", 3, true, 9, 9⟩],
       .ok ⟨true, [],
         some ⟨7, "", some "2022-05-05", 3, true, 9, 9⟩⟩) :=
  ⟨rfl, rfl⟩

/-- C10 amended: `validateTodo` treats an absent title as valid (no
title error is ever produced for it, and the all-absent payload
validates to the empty list), so `create` with no title proceeds to
the INSERT; the missing title is bound as the empty string — a
non-NULL parameter that satisfies the NOT NULL constraint — so when
the insert succeeds the stored title is `""`. -/
theorem absent_title_passes_validation (t : TodoInput)
    (h : isEmpty t.title = true) :
    (∀ e ∈ validateTodo t, e.field ≠ "title") ∧
    validateTodo ⟨.undef, .undef, .undef, .undef⟩ = [] ∧
    xss t.title = "" ∧
    some (xss t.title) ≠ (none : Option String) ∧
    (∀ db nid now db' res, create db nid now t = (db', .ok res) →
      res.success = true →
      ∃ r : Row, res.item = some r ∧ r.title = "") := by
  refine ⟨?_, rfl, xss_empty_of_isEmpty h, by simp, ?_⟩
  · intro e he
    unfold validateTodo at he
    rw [h] at he
    by_cases hc2 : (!isEmpty t.position && !positionOk t.position) = true <;>
      by_cases hc3 :
          (!isEmpty t.completed && !completedOk t.completed) = true <;>
        by_cases hc4 : (!isEmpty t.due && !dueOk t.due) = true <;>
          simp [hc2, hc3, hc4] at he <;> aesop
  · intro db nid now db' res hcr hs
    by_cases hv : (validateTodo t).length > 0
    · have hc2 : create db nid now t =
          (db, .ok ⟨false, validateTodo t, none⟩) := by
        unfold create; simp [hv]
      rw [hc2] at hcr
      simp only [Prod.mk.injEq, Except.ok.injEq] at hcr
      rw [← hcr.2] at hs
      cases hs
    · have hv0 : (validateTodo t).length = 0 := by omega
      cases hins : insertTodo db nid now (some (xss t.title))
          (some (xss t.position)) (some (xss t.completed))
          (some (xss t.due)) with
      | error e =>
        have hc2 : create db nid now t = (db, .error e) := by
          unfold create; simp [hv, hins]
        rw [hc2] at hcr
        simp only [Prod.mk.injEq] at hcr
        cases hcr.2
      | ok pr =>
        obtain ⟨db2, rnew⟩ := pr
        have hc2 : create db nid now t = (db2, .ok ⟨true, [], some rnew⟩) := by
          unfold create; simp [hv, hins]
        rw [hc2] at hcr
        simp only [Prod.mk.injEq, Except.ok.injEq] at hcr
        obtain ⟨_, hres⟩ := hcr
        obtain ⟨_, htitle, _, _⟩ := insert_path_inv hv0 hins
        refine ⟨rnew, by rw [← hres], ?_⟩
        rw [htitle]
        exact xss_empty_of_isEmpty h

/-- Witness for C10 amended: the all-absent payload. -/
theorem absent_title_passes_validation_spot :
    (∀ e ∈ validateTodo ⟨.undef, .undef, .undef, .undef⟩,
      e.field ≠ "title") ∧
    validateTodo ⟨.undef, .undef, .undef, .undef⟩ = [] ∧
    xss (TodoInput.mk .undef .undef .undef .undef).title = "" ∧
    some (xss (TodoInput.mk .undef .undef .undef .undef).title) ≠
      (none : Option String) ∧
    (∀ db nid now db' res,
      create db nid now ⟨.undef, .undef, .undef, .undef⟩ =
        (db', .ok res) →
      res.success = true →
      ∃ r : Row, res.item = some r ∧ r.title = "") :=
  absent_title_passes_validation ⟨.undef, .undef, .undef, .undef⟩ rfl

end Todos
